import Mathlib

/-!
Shallow embedding of the fit-optimizing layout engine of `svgtextbox`.

The Rust sources embedded here:
* `src/layout.rs` — `LayoutManager::new`, `get_best_fit`, and the
  `LayoutExtension` trait (`fits`, `change_size_and_check_fits`,
  `grow_to_maximum_font_size`, `set_font_size`) over `pango::Layout`;
* `src/textbox.rs` — `TextBox`'s `LayoutSource` implementation
  (`possible_widths`, `possible_heights`) and `PaddingSpecification`;
* `src/fontsizing.rs` — `FontSizing` (`to_vec`, `from_vec`);
* `src/input.rs` — `FontSizing::from_range` and `ints_from_str`;
* `src/layout.rs` (interface module) — `RenderedTextbox::insert_background_rect`.

The external pango shaping oracle is modelled as a function from the
layout's mutable state (width, height, font size) to the signals the code
reads back (ellipsized flag, ink extents, `xy_to_index` reply), together
with the byte length of the layout's text.  Machine integers (`i32`) are
modelled as `Int`; the code under study performs no arithmetic anywhere
near overflow.  Rust's `f64` fields of `RenderedTextbox` are modelled as
`ℚ`: the embedded claim only stores and compares them, never rounds.
-/

namespace SvgTextBox

/-- The constant `pango::SCALE`. -/
def SCALE : Int := 1024

/-- The error enum of `src/errors.rs` (the variants the embedded code uses). -/
inductive SvgTextBoxError where
  | NoValidWidths
  | NoValidHeights
  | NoValidFontSizes
  | CouldNotFit
  | UnexpectedNone
  deriving DecidableEq, Repr

/-- The raw signals the code reads from a pango layout at a given state:
the ellipsized flag, the ink extents `(x, y, width, height)`, and the char
index reported by `xy_to_index(get_width(), get_height())` (the index of
the character nearest the bottom-right corner of the box). -/
structure OracleSignals where
  isEllipsized : Bool
  inkX : Int
  inkY : Int
  inkWidth : Int
  inkHeight : Int
  xyToIndexBR : Int
  deriving DecidableEq, Repr

/-- The pango shaping oracle: a pure map from the layout's mutable state
(width, height, font size) to the signals it reports, plus the byte
length of the layout's text (`layout.get_text().len()`), which is fixed
once the markup is set. -/
structure PangoOracle where
  signals : Int → Int → Int → OracleSignals
  textByteLen : Nat

/-- The mutable state of a `pango::Layout` that the search code touches:
`set_width`/`set_height`/`set_font_size` each overwrite one field. -/
structure PLayout where
  width : Int
  height : Int
  fontSize : Int
  deriving DecidableEq, Repr

/-- Embeds `LayoutExtension::set_font_size` (src/layout.rs): replace the base
font size of the layout's font description. -/
def set_font_size (l : PLayout) (n : Int) : PLayout :=
  { l with fontSize := n }

/-- Embeds `LayoutExtension::fits` (src/layout.rs): the char index nearest the
bottom-right corner must equal the last utf8 byte index of the text, and
the layout must not be ellipsized.  (This is the whole predicate in the
source; it reads no ink extents.) -/
def fits (o : PangoOracle) (l : PLayout) : Bool :=
  let s := o.signals l.width l.height l.fontSize
  let last_char_index := s.xyToIndexBR
  let dropped_chars := last_char_index != (o.textByteLen : Int) - 1
  !(s.isEllipsized || dropped_chars)

/-- The fit outcome at a given box and size; abbreviation used to state
properties of the search. -/
def fitAt (o : PangoOracle) (w h n : Int) : Bool :=
  fits o ⟨w, h, n⟩

/-- Embeds `LayoutExtension::change_size_and_check_fits` (src/layout.rs): set the
font size, then report `Less` if the layout fits and `Greater` if not. -/
def change_size_and_check_fits (o : PangoOracle) (l : PLayout) (size : Int) :
    PLayout × Ordering :=
  let l1 := set_font_size l size
  (l1, if fits o l1 then Ordering.lt else Ordering.gt)

/-- The loop of Rust `<[T]>::binary_search_by` (libcore), with the
comparator `change_size_and_check_fits` and the layout state threaded
through each probe.  `base`/`size` are the loop variables of the libcore
implementation; the loop narrows `size` to `1` and returns the final
`base`. -/
def binary_search_loop (o : PangoOracle) (v : List Int) (l : PLayout)
    (base size : Nat) : PLayout × Nat :=
  if _h : 1 < size then
    let half := size / 2
    let mid := base + half
    let probe := change_size_and_check_fits o l (v.getD mid 0)
    binary_search_loop o v probe.1
      (if probe.2 = Ordering.gt then base else mid) (size - half)
  else
    (l, base)
termination_by size
decreasing_by
  simp_wf
  omega

/-- Rust `v.binary_search_by(|n| self.change_size_and_check_fits(*n))`
(libcore `binary_search_by` plus the stateful comparator): `Sum.inl i`
models `Ok(i)`, `Sum.inr i` models `Err(i)` (the insertion index). -/
def binary_search_by_fits (o : PangoOracle) (v : List Int) (l : PLayout) :
    PLayout × (Nat ⊕ Nat) :=
  if v.length = 0 then
    (l, Sum.inr 0)
  else
    let r := binary_search_loop o v l 0 v.length
    let probe := change_size_and_check_fits o r.1 (v.getD r.2 0)
    if probe.2 = Ordering.eq then
      (probe.1, Sum.inl r.2)
    else
      (probe.1, Sum.inr (r.2 + if probe.2 = Ordering.lt then 1 else 0))

/-- Embeds `LayoutExtension::grow_to_maximum_font_size` (src/layout.rs): binary
search the candidate sizes, fail with `CouldNotFit` at insertion index 0,
otherwise re-apply the size immediately preceding the insertion index. -/
def grow_to_maximum_font_size (o : PangoOracle) (l : PLayout) (v : List Int) :
    PLayout × Except SvgTextBoxError Unit :=
  let r := binary_search_by_fits o v l
  match r.2 with
  | Sum.inl _ => (r.1, Except.error SvgTextBoxError.UnexpectedNone)
  | Sum.inr index =>
    if index = 0 then
      (r.1, Except.error SvgTextBoxError.CouldNotFit)
    else
      match v[index - 1]? with
      | none => (r.1, Except.error SvgTextBoxError.UnexpectedNone)
      | some r2 => (set_font_size r.1 r2, Except.ok ())

/-- SPEC-SIDE definition (for the refinement claim C1, from the spec's
words): a linear scan for the largest fitting candidate in an ascending
list, `none` when nothing fits. -/
def linear_scan_largest_fit (fit : Int → Bool) (v : List Int) : Option Int :=
  (v.filter fit).getLast?

/-- Embeds `LayoutManager` (src/layout.rs): the dimension candidates, the sorted
font-size candidates, and the base layout. -/
structure LayoutManager where
  dimensions : List (Int × Int)
  font_sizes : List Int
  base_layout : PLayout
  deriving DecidableEq, Repr

/-- Collecting an iterator through a `BTreeSet<i32>` and back into a
`Vec`: the sorted deduplication performed by `LayoutManager::new`. -/
def btreeset_collect (l : List Int) : List Int :=
  l.toFinset.sort (· ≤ ·)

/-- The dimension enumeration of `LayoutManager::new` (src/layout.rs):
`possible_widths().flat_map(|v| repeat(v).zip(possible_heights()))`. -/
def possible_dimensions (widths heights : List Int) : List (Int × Int) :=
  widths.flatMap (fun w => heights.map (fun h => (w, h)))

/-- Embeds `LayoutManager::new` (src/layout.rs): sort/dedup the font sizes and
reject empty candidate lists; `base` stands for the freshly created
layout (markup, wrap and alignment already applied). -/
def LayoutManager.new (widths heights font_sizes : List Int) (base : PLayout) :
    Except SvgTextBoxError LayoutManager :=
  let possible_font_sizes := btreeset_collect font_sizes
  if possible_font_sizes.isEmpty then
    Except.error SvgTextBoxError.NoValidFontSizes
  else if heights.isEmpty then
    Except.error SvgTextBoxError.NoValidHeights
  else if widths.isEmpty then
    Except.error SvgTextBoxError.NoValidWidths
  else
    Except.ok ⟨possible_dimensions widths heights, possible_font_sizes, base⟩

/-- The loop body of `LayoutManager::get_best_fit` (src/layout.rs): set
the candidate width and height on the layout, grow the font, accept the
first success, skip `CouldNotFit`, abort on any other error. -/
def get_best_fit_loop (o : PangoOracle) (font_sizes : List Int) (l : PLayout) :
    List (Int × Int) → Except SvgTextBoxError PLayout
  | [] => Except.error SvgTextBoxError.CouldNotFit
  | (w, h) :: rest =>
    let l1 : PLayout := { l with width := w, height := h }
    let r := grow_to_maximum_font_size o l1 font_sizes
    match r.2 with
    | Except.ok _ => Except.ok r.1
    | Except.error SvgTextBoxError.CouldNotFit => get_best_fit_loop o font_sizes r.1 rest
    | Except.error e => Except.error e

/-- Embeds `LayoutManager::get_best_fit` (src/layout.rs). -/
def get_best_fit (o : PangoOracle) (m : LayoutManager) :
    Except SvgTextBoxError PLayout :=
  get_best_fit_loop o m.font_sizes m.base_layout m.dimensions

/-- The historical fit predicate `LayoutSizing::fits` (src/lib.rs): not
ellipsized and the ink-extent rectangle within the box; it reads no
character index. -/
def fits_v1 (o : PangoOracle) (l : PLayout) : Bool :=
  let s := o.signals l.width l.height l.fontSize
  let ellipsized := s.isEllipsized
  let northwest_bounds_exceeded := (s.inkX < 0) || (s.inkY < 0)
  let southeast_bounds_exceeded :=
    (s.inkHeight + s.inkY > l.height) || (s.inkWidth + s.inkX > l.width)
  !(ellipsized || northwest_bounds_exceeded || southeast_bounds_exceeded)

/-- SPEC-SIDE definition (the three-signal fit predicate of the claim,
from the spec's words): not ellipsized, ink extents at a non-negative
offset and within the box, and the character index nearest the box's
bottom-right corner equal to the index of the last character of the full
input text. -/
def fits_claimed (o : PangoOracle) (l : PLayout) : Bool :=
  let s := o.signals l.width l.height l.fontSize
  let bounds_ok := (0 ≤ s.inkX) && (0 ≤ s.inkY) &&
    (s.inkX + s.inkWidth ≤ l.width) && (s.inkY + s.inkHeight ≤ l.height)
  (!s.isEllipsized) && bounds_ok && (s.xyToIndexBR == (o.textByteLen : Int) - 1)

/-- SPEC-SIDE definition (the probe order of claim C3, from the spec's
words): all widths ascending while the height is held at the minimum
height, then all heights ascending while the width is held at the
maximum width. -/
def claimed_dimension_order (widths heights : List Int) : List (Int × Int) :=
  widths.map (fun w => (w, heights.headI)) ++
    heights.map (fun h => (widths.getLastD 0, h))

/-- SPEC-SIDE definition: the first dimension pair, in a given probe
order, for which a font size fits. -/
def first_fitting_pair (pairFits : Int → Int → Bool) (dims : List (Int × Int)) :
    Option (Int × Int) :=
  dims.find? (fun p => pairFits p.1 p.2)

/-! ### src/textbox.rs -/

/-- Embeds `PaddingSpecification` (src/textbox.rs); fields are `u16`. -/
structure PaddingSpecification where
  top : Nat
  bottom : Nat
  left : Nat
  right : Nat
  deriving DecidableEq, Repr

/-- Embeds `PaddingSpecification::total_horizontal_padding`: `i32::from(left + right)`. -/
def PaddingSpecification.total_horizontal_padding (p : PaddingSpecification) : Int :=
  (p.left : Int) + (p.right : Int)

/-- Embeds `PaddingSpecification::total_vertical_padding`: `i32::from(top + bottom)`. -/
def PaddingSpecification.total_vertical_padding (p : PaddingSpecification) : Int :=
  (p.top : Int) + (p.bottom : Int)

/-- Embeds `TextBox` (src/textbox.rs), restricted to the fields the embedded
claims read: `width` and `height` stand for the value sequences produced
by the corresponding `UnitContainer` iterators (positive `u16` values, as
`i32`), and `padding`.  The markup, font description, alignment,
font-size container and background attributes play no part in the
dimension arithmetic under study. -/
structure TextBox where
  width : List Int
  height : List Int
  padding : PaddingSpecification
  deriving DecidableEq, Repr

/-- Embeds `LayoutSource::possible_widths` for `TextBox` (src/textbox.rs):
`self.width.iter().map(|n| i32::from(n) * SCALE).map(|n| n - total_horizontal_padding() * SCALE)`. -/
def TextBox.possible_widths (tb : TextBox) : List Int :=
  (tb.width.map (fun n => n * SCALE)).map
    (fun n => n - tb.padding.total_horizontal_padding * SCALE)

/-- Embeds `LayoutSource::possible_heights` for `TextBox` (src/textbox.rs).
The source iterates `self.width.iter()` here — that is what the code
says, and it is preserved verbatim. -/
def TextBox.possible_heights (tb : TextBox) : List Int :=
  (tb.width.map (fun n => n * SCALE)).map
    (fun n => n - tb.padding.total_vertical_padding * SCALE)

/-- SPEC-SIDE definition (claim C4, from the spec's words): each height
candidate is a value of the *height* spec converted to scaled units minus
the total vertical padding. -/
def claimed_possible_heights (tb : TextBox) : List Int :=
  tb.height.map (fun n => n * SCALE - tb.padding.total_vertical_padding * SCALE)

/-! ### src/fontsizing.rs -/

/-- Rust `(min..=max)` collected to a list (`u16` values as `Nat`). -/
def rangeList (mn mx : Nat) : List Nat :=
  List.range' mn (mx + 1 - mn)

/-- Embeds `Iterator::step_by(s)` on a collected list (`s ≥ 1` in any run that
does not panic): keep the elements whose index is a multiple of `s`. -/
def stepByList (s : Nat) (l : List Nat) : List Nat :=
  (l.enum.filter (fun p => p.1 % s = 0)).map Prod.snd

/-- Embeds `FontSizing` (src/fontsizing.rs): a single size, a min/max/step
range, or a selection of sizes (`HashSet<u16>`, modelled as `Finset`). -/
inductive FontSizing where
  | Static (n : Nat)
  | Range (min max : Nat) (step : Option Nat)
  | Flex (s : Finset Nat)
  deriving DecidableEq

/-- Embeds `impl Default for FontSizing` (src/fontsizing.rs). -/
def FontSizing.default : FontSizing :=
  FontSizing.Range 10 30 none

/-- Embeds `FontSizing::to_vec` (src/fontsizing.rs): `Static` yields the value,
`Flex` the sorted set, `Range` the stepped inclusive range. -/
def FontSizing.to_vec : FontSizing → List Nat
  | FontSizing.Static i => [i]
  | FontSizing.Flex h => h.sort (· ≤ ·)
  | FontSizing.Range mn mx stp =>
    match stp with
    | some s => stepByList s (rangeList mn mx)
    | none => rangeList mn mx

/-- Embeds `FontSizing::from_vec` (src/fontsizing.rs): empty → default; one
value → `Static`; two descending values → two-element `Flex`; two
ascending values → the range between them, collected into a `Flex`;
anything else → `Flex` of the values. -/
def FontSizing.from_vec (v : List Nat) : FontSizing :=
  match v with
  | [] => FontSizing.default
  | [single_value] => FontSizing.Static single_value
  | [first, second] =>
    if second < first then FontSizing.Flex v.toFinset
    else if first < second then
      FontSizing.Flex (FontSizing.to_vec (FontSizing.Range first second none)).toFinset
    else FontSizing.Flex v.toFinset
  | _ => FontSizing.Flex v.toFinset

/-- SPEC-SIDE definition (§3 of the spec): a valid spec has only positive
values, `min ≤ max`, a step of at least 1, and a nonempty set. -/
def FontSizing.ValidSpec : FontSizing → Prop
  | FontSizing.Static n => 0 < n
  | FontSizing.Range mn mx stp => 0 < mn ∧ mn ≤ mx ∧ ∀ s, stp = some s → 1 ≤ s
  | FontSizing.Flex s => s.Nonempty ∧ ∀ n ∈ s, 0 < n

/-! ### src/input.rs -/

/-- The `LayoutError` variants of src/errors.rs used by the embedded
input code. -/
inductive LayoutError where
  | IntsFromString
  | BadFontRange
  deriving DecidableEq, Repr

/-- Rust `(a..=b)` over `i32`, collected. -/
def intRange (a b : Int) : List Int :=
  (List.range (b + 1 - a).toNat).map (fun (i : Nat) => a + (i : Int))

def DEFAULT_MAX_FONT_SIZE : Int := 500

def DEFAULT_MIN_FONT_SIZE : Int := 0

/-- Embeds `FontSizing` of src/input.rs (a distinct type from the one in
src/fontsizing.rs): a single size or an explicit selection. -/
inductive InputFontSizing where
  | Static (n : Int)
  | Selection (v : List Int)
  deriving DecidableEq, Repr

/-- Embeds `FontSizing::from_range` (src/input.rs): absent bounds default to
0/500; `max < min` is an error at construction. -/
def InputFontSizing.from_range (mn mx : Option Int) :
    Except LayoutError InputFontSizing :=
  match mn, mx with
  | some mn, none =>
    Except.ok (InputFontSizing.Selection (intRange mn DEFAULT_MAX_FONT_SIZE))
  | none, some mx =>
    Except.ok (InputFontSizing.Selection (intRange DEFAULT_MIN_FONT_SIZE mx))
  | none, none =>
    Except.ok (InputFontSizing.Selection (intRange DEFAULT_MIN_FONT_SIZE DEFAULT_MAX_FONT_SIZE))
  | some mn, some mx =>
    if mx < mn then Except.error LayoutError.BadFontRange
    else Except.ok (InputFontSizing.Selection (intRange mn mx))

/-- Embeds `TextBoxInput::ints_from_str` (src/input.rs), modelled at the level
of the already-parsed integer tokens of the source string (the
whitespace tokenisation and decimal parsing, and the `source.is_empty()`
guard, are string-level concerns outside this embedding): every token
must be positive, and a two-token ascending input is expanded to the
inclusive range; the result is collected into a `HashSet`. -/
def ints_from_str (ints0 : List Int) : Except LayoutError (Finset Int) :=
  if ints0.any (fun i => i ≤ 0) then Except.error LayoutError.IntsFromString
  else
    let ints :=
      if ints0.length = 2 then
        if ints0.getD 1 0 > ints0.getD 0 0 ∧ ¬(ints0.getD 1 0 = ints0.getD 0 0) then
          intRange (ints0.getD 0 0) (ints0.getD 1 0)
        else ints0
      else ints0
    Except.ok ints.toFinset

/-! ### `RenderedTextbox::insert_background_rect` (src/layout.rs) -/

/-- Embeds `RenderedTextbox` (src/layout.rs): the svg source and the final
width and height (`f64` in the source, modelled as `ℚ`; the embedded
code only stores and prints these fields). -/
structure RenderedTextbox where
  src : String
  width : ℚ
  height : ℚ
  deriving DecidableEq

/-- Embeds `BTreeMap::insert`: bind `k` to `v`, replacing any previous binding. -/
def mapInsert (k v : String) (m : List (String × String)) : List (String × String) :=
  (k, v) :: m.filter (fun kv => ¬(kv.1 = k))

/-- The `BTreeMap` assembled by `insert_background_rect` (src/layout.rs):
the caller's attributes, then `x`, `y`, `width` and `height` inserted
over them. -/
def background_rect_attrs (tb : RenderedTextbox) (attrs : List (String × String)) :
    List (String × String) :=
  let a := attrs.foldl (fun m kv => mapInsert kv.1 kv.2 m) []
  let a := mapInsert "x" "0" a
  let a := mapInsert "y" "0" a
  let a := mapInsert "width" (toString tb.width) a
  let a := mapInsert "height" (toString tb.height) a
  a

/-- Embeds `RenderedTextbox::insert_background_rect` (src/layout.rs): format the
assembled attributes in key order and splice a `<g><rect …/></g>` after
`</defs>` in the svg source.  The call always succeeds and touches no
field but `src`. -/
def insert_background_rect (tb : RenderedTextbox) (attrs : List (String × String)) :
    RenderedTextbox :=
  let a := (background_rect_attrs tb attrs).mergeSort (fun x y => x.1 ≤ y.1)
  let b := String.intercalate " "
    (a.map (fun kv => kv.1 ++ "=\"" ++ kv.2 ++ "\""))
  let padding_rect := "</defs>\n<g>\n<rect " ++ b ++ "/>\n</g>"
  { tb with src := tb.src.replace "</defs>" padding_rect }

/-! ### Concrete inputs used by counterexamples and witnesses -/

/-- An oracle (witness input for the font-size search claims) under
which the text fits exactly at font sizes up to 2, in any box. -/
def c1Oracle : PangoOracle :=
  ⟨fun _ _ s => if s ≤ 2 then ⟨false, 0, 0, 0, 0, 0⟩ else ⟨true, 0, 0, 0, 0, 0⟩, 1⟩

/-- An oracle state (for claim C2) whose ink extents start left of the
box (`ink x = -5`) and overflow it, while the ellipsized flag is off and
the nearest-corner character index matches the 10-byte text. -/
def c2Oracle : PangoOracle :=
  ⟨fun _ _ _ => ⟨false, -5, 0, 300, 300, 9⟩, 10⟩

def c2Layout : PLayout :=
  ⟨100, 100, 12⟩

/-- An oracle (for claim C3) under which the text fits exactly in the
boxes 1×20 and 2×10, at any font size. -/
def c3Oracle : PangoOracle :=
  ⟨fun w h _ =>
    if (w = 1 ∧ h = 20) ∨ (w = 2 ∧ h = 10) then ⟨false, 0, 0, 0, 0, 0⟩
    else ⟨true, 0, 0, 0, 0, 0⟩, 1⟩

/-- The manager `LayoutManager::new` builds (for claim C3) from widths
`{1, 2}`, heights `{10, 20}` and the single font size 5. -/
def c3Manager : LayoutManager :=
  ⟨possible_dimensions [1, 2] [10, 20], [5], ⟨0, 0, 0⟩⟩

/-- A textbox (for claim C4) whose width spec is `{100}`, height spec is
`{200}`, with no padding. -/
def c4TextBox : TextBox :=
  ⟨[100], [200], ⟨0, 0, 0, 0⟩⟩

/-!
## Helper lemmas

The characterization of the binary search: with a fit predicate that is a
prefix property of the candidate indices (which monotonicity over an
ascending list provides), the libcore loop lands exactly on the boundary.
-/

lemma change_size_eq (o : PangoOracle) (l : PLayout) (n : Int) :
    change_size_and_check_fits o l n =
      (⟨l.width, l.height, n⟩,
        if fitAt o l.width l.height n then Ordering.lt else Ordering.gt) := rfl

lemma binary_search_loop_spec (o : PangoOracle) (v : List Int) (w h : Int) (k : Nat)
    (hshape : ∀ i, i < v.length → fitAt o w h (v.getD i 0) = decide (i < k)) :
    ∀ size base (l : PLayout), l.width = w → l.height = h →
      0 < size → base + size ≤ v.length →
      (k = 0 → base = 0) → (0 < k → base ≤ k - 1 ∧ k - 1 < base + size) →
      (binary_search_loop o v l base size).1.width = w ∧
      (binary_search_loop o v l base size).1.height = h ∧
      (binary_search_loop o v l base size).2 = if k = 0 then 0 else k - 1 := by
  intro size
  induction size using Nat.strong_induction_on with
  | _ size ih =>
    intro base l hw hh hpos hle hk0 hkpos
    rw [binary_search_loop]
    by_cases hgt : 1 < size
    · simp only [dif_pos hgt, change_size_eq, hw, hh]
      have hmidlt : base + size / 2 < v.length := by omega
      have hcmp := hshape (base + size / 2) hmidlt
      by_cases hfit : fitAt o w h (v.getD (base + size / 2) 0) = true
      · have hmk : base + size / 2 < k := by
          rw [hfit] at hcmp; exact of_decide_eq_true hcmp.symm
        simp only [hfit, if_true, reduceCtorEq, if_false]
        exact ih (size - size / 2) (by omega) (base + size / 2) ⟨w, h, _⟩ rfl rfl
          (by omega) (by omega) (by omega) (by intro _; omega)
      · have hmk : k ≤ base + size / 2 := by
          rw [Bool.not_eq_true] at hfit
          rw [hfit] at hcmp
          have := of_decide_eq_false hcmp.symm
          omega
        simp only [hfit, Bool.false_eq_true, if_false, if_true]
        exact ih (size - size / 2) (by omega) base ⟨w, h, _⟩ rfl rfl
          (by omega) (by omega) hk0 (by intro hkp; have := hkpos hkp; omega)
    · simp only [dif_neg hgt]
      have hsz : size = 1 := by omega
      refine ⟨hw, hh, ?_⟩
      by_cases hk : k = 0
      · simp [hk, hk0 hk]
      · have := hkpos (by omega)
        simp only [hk, if_false]
        omega

lemma binary_search_by_fits_spec (o : PangoOracle) (v : List Int) (w h : Int) (k : Nat)
    (hshape : ∀ i, i < v.length → fitAt o w h (v.getD i 0) = decide (i < k))
    (hk : k ≤ v.length) (hne : v ≠ []) (l : PLayout) (hw : l.width = w) (hh : l.height = h) :
    (binary_search_by_fits o v l).1.width = w ∧
    (binary_search_by_fits o v l).1.height = h ∧
    (binary_search_by_fits o v l).2 = Sum.inr k := by
  have hlen : v.length ≠ 0 := by
    simpa [List.length_eq_zero] using hne
  have hloop := binary_search_loop_spec o v w h k hshape v.length 0 l hw hh
    (by omega) (by omega) (fun _ => rfl) (by omega)
  rw [binary_search_by_fits]
  simp only [hlen, if_false]
  obtain ⟨hw1, hh1, hbase⟩ := hloop
  by_cases hk0 : k = 0
  · subst hk0
    have hfit := hshape 0 (by omega)
    norm_num at hfit
    rw [change_size_eq, hw1, hh1, hbase]
    simp [hfit]
  · have hfit := hshape (k - 1) (by omega)
    have hd : decide (k - 1 < k) = true := by simp; omega
    rw [hd] at hfit
    rw [change_size_eq, hw1, hh1, hbase]
    simp only [if_neg hk0]
    rw [List.getD_eq_getElem?_getD] at hfit
    simp [hfit]
    omega

lemma grow_spec (o : PangoOracle) (v : List Int) (w h : Int) (k : Nat)
    (hshape : ∀ i, i < v.length → fitAt o w h (v.getD i 0) = decide (i < k))
    (hk : k ≤ v.length) (hne : v ≠ []) (l : PLayout) (hw : l.width = w) (hh : l.height = h) :
    (k = 0 → (grow_to_maximum_font_size o l v).2 = Except.error SvgTextBoxError.CouldNotFit) ∧
    (0 < k → grow_to_maximum_font_size o l v = (⟨w, h, v.getD (k - 1) 0⟩, Except.ok ())) := by
  obtain ⟨hw1, hh1, hres⟩ := binary_search_by_fits_spec o v w h k hshape hk hne l hw hh
  rw [grow_to_maximum_font_size]
  constructor
  · intro hk0
    subst hk0
    rw [hres]
    simp
  · intro hkpos
    have hk0 : k ≠ 0 := by omega
    rw [hres]
    have hget : v[k - 1]? = some (v.getD (k - 1) 0) := by
      rw [List.getD_eq_getElem?_getD, List.getElem?_eq_getElem (by omega)]
      simp
    simp only [hk0, if_false, hget]
    have : set_font_size (binary_search_by_fits o v l).1 (v.getD (k - 1) 0) =
        ⟨w, h, v.getD (k - 1) 0⟩ := by
      rw [set_font_size]
      cases hx : (binary_search_by_fits o v l).1
      rw [hx] at hw1 hh1
      simp at hw1 hh1 ⊢
      exact ⟨hw1, hh1⟩
    rw [this]

lemma shape_of_sorted_mono (fit : Int → Bool) :
    ∀ v : List Int, v.Sorted (· < ·) →
      (∀ a ∈ v, ∀ b ∈ v, a ≤ b → fit b = true → fit a = true) →
      ∀ i, i < v.length → fit (v.getD i 0) = decide (i < (v.takeWhile fit).length)
  | [], _, _ => by intro i hi; simp at hi
  | a :: t, hs, hmono => by
    have hst : t.Sorted (· < ·) := hs.of_cons
    have hmt : ∀ x ∈ t, ∀ b ∈ t, x ≤ b → fit b = true → fit x = true := by
      intro x hx b hb
      exact hmono x (List.mem_cons_of_mem a hx) b (List.mem_cons_of_mem a hb)
    by_cases hfa : fit a = true
    · intro i hi
      cases i with
      | zero => simp [List.takeWhile_cons, hfa]
      | succ j =>
        have := shape_of_sorted_mono fit t hst hmt j (by simpa using hi)
        simpa [List.takeWhile_cons, hfa] using this
    · have hall : ∀ x ∈ t, fit x = false := by
        intro x hx
        by_contra hfx
        rw [Bool.not_eq_false] at hfx
        have hax : a < x := (List.sorted_cons.mp hs).1 x hx
        exact hfa (hmono a (List.mem_cons_self a t) x (List.mem_cons_of_mem a hx) (le_of_lt hax) hfx)
      intro i hi
      rw [Bool.not_eq_true] at hfa
      have hk : ((a :: t).takeWhile fit).length = 0 := by
        simp [List.takeWhile_cons, hfa]
      rw [hk]
      cases i with
      | zero => simp [hfa]
      | succ j =>
        have hj : j < t.length := by simpa using hi
        have : (a :: t).getD (j + 1) 0 = t.getD j 0 := by simp
        rw [this]
        have hmem : t.getD j 0 ∈ t := by
          rw [List.getD_eq_getElem _ _ hj]
          exact List.getElem_mem hj
        rw [List.getD_eq_getElem?_getD] at hmem ⊢
        simp [hall _ hmem]

lemma filter_eq_takeWhile_of_mono (fit : Int → Bool) :
    ∀ v : List Int, v.Sorted (· < ·) →
      (∀ a ∈ v, ∀ b ∈ v, a ≤ b → fit b = true → fit a = true) →
      v.filter fit = v.takeWhile fit
  | [], _, _ => rfl
  | a :: t, hs, hmono => by
    have hst : t.Sorted (· < ·) := hs.of_cons
    have hmt : ∀ x ∈ t, ∀ b ∈ t, x ≤ b → fit b = true → fit x = true := by
      intro x hx b hb
      exact hmono x (List.mem_cons_of_mem a hx) b (List.mem_cons_of_mem a hb)
    by_cases hfa : fit a = true
    · rw [List.filter_cons_of_pos hfa, List.takeWhile_cons_of_pos hfa,
        filter_eq_takeWhile_of_mono fit t hst hmt]
    · have hall : ∀ x ∈ t, fit x = false := by
        intro x hx
        by_contra hfx
        rw [Bool.not_eq_false] at hfx
        have hax : a < x := (List.sorted_cons.mp hs).1 x hx
        exact hfa (hmono a (List.mem_cons_self a t) x (List.mem_cons_of_mem a hx) (le_of_lt hax) hfx)
      rw [Bool.not_eq_true] at hfa
      rw [List.filter_cons_of_neg (by simp [hfa]), List.takeWhile_cons_of_neg (by simp [hfa])]
      exact List.filter_eq_nil_iff.mpr (by intro x hx; simp [hall x hx])

lemma linear_scan_spec (fit : Int → Bool) (v : List Int) (hs : v.Sorted (· < ·))
    (hmono : ∀ a ∈ v, ∀ b ∈ v, a ≤ b → fit b = true → fit a = true) :
    linear_scan_largest_fit fit v =
      if (v.takeWhile fit).length = 0 then none
      else some (v.getD ((v.takeWhile fit).length - 1) 0) := by
  rw [linear_scan_largest_fit, filter_eq_takeWhile_of_mono fit v hs hmono]
  by_cases hk : (v.takeWhile fit).length = 0
  · rw [if_pos hk]
    rw [List.length_eq_zero] at hk
    simp [hk]
  · rw [if_neg hk]
    have hpre : v.takeWhile fit <+: v := List.takeWhile_prefix fit
    have hlt : (v.takeWhile fit).length - 1 < (v.takeWhile fit).length := by omega
    have hlen : (v.takeWhile fit).length - 1 < v.length :=
      lt_of_lt_of_le hlt hpre.length_le
    rw [List.getLast?_eq_getElem?, List.getElem?_eq_getElem hlt]
    rw [List.getD_eq_getElem _ _ hlen]
    congr 1
    exact List.IsPrefix.getElem hpre hlt

lemma headI_fit_iff (fit : Int → Bool) (v : List Int) (hne : v ≠ []) :
    (fit v.headI = false ↔ (v.takeWhile fit).length = 0) := by
  cases v with
  | nil => exact absurd rfl hne
  | cons a t =>
    constructor
    · intro hf
      simp [List.headI] at hf
      simp [List.takeWhile_cons, hf]
    · intro hk
      by_contra hf
      rw [Bool.not_eq_false] at hf
      simp [List.headI] at hf
      simp [List.takeWhile_cons, hf] at hk

lemma any_iff_takeWhile_pos (fit : Int → Bool) (v : List Int) (hne : v ≠ [])
    (hsorted : v.Sorted (· < ·))
    (hmono : ∀ a ∈ v, ∀ b ∈ v, a ≤ b → fit b = true → fit a = true) :
    (v.any fit = true ↔ 0 < (v.takeWhile fit).length) := by
  have hhead := headI_fit_iff fit v hne
  constructor
  · intro hany
    rw [List.any_eq_true] at hany
    obtain ⟨b, hb, hfb⟩ := hany
    cases v with
    | nil => exact absurd rfl hne
    | cons a t =>
      have hab : a ≤ b := by
        rcases List.mem_cons.mp hb with h | h
        · omega
        · exact le_of_lt ((List.sorted_cons.mp hsorted).1 b h)
      have hfa : fit a = true :=
        hmono a (List.mem_cons_self a t) b hb hab hfb
      simp [List.takeWhile_cons, hfa]
  · intro hpos
    have hf : fit v.headI = true := by
      by_contra hc
      rw [Bool.not_eq_true] at hc
      have := hhead.mp hc
      omega
    cases v with
    | nil => exact absurd rfl hne
    | cons a t =>
      simp [List.headI] at hf
      simp [List.any_cons, hf]

lemma get_best_fit_loop_spec (o : PangoOracle) (fs : List Int)
    (hne : fs ≠ []) (hsorted : fs.Sorted (· < ·))
    (hmono : ∀ w h : Int, ∀ a ∈ fs, ∀ b ∈ fs, a ≤ b →
      fitAt o w h b = true → fitAt o w h a = true) :
    ∀ (dims : List (Int × Int)) (l : PLayout),
      (∀ w h, first_fitting_pair (fun w h => fs.any (fitAt o w h)) dims = some (w, h) →
        ∃ s, linear_scan_largest_fit (fitAt o w h) fs = some s ∧
          get_best_fit_loop o fs l dims = Except.ok ⟨w, h, s⟩) ∧
      (first_fitting_pair (fun w h => fs.any (fitAt o w h)) dims = none →
        get_best_fit_loop o fs l dims = Except.error SvgTextBoxError.CouldNotFit)
  | [], l => by
    constructor
    · intro w h hfind
      simp [first_fitting_pair] at hfind
    · intro _
      rfl
  | (w0, h0) :: rest, l => by
    have hshape := shape_of_sorted_mono (fitAt o w0 h0) fs hsorted (hmono w0 h0)
    have hkle : (fs.takeWhile (fitAt o w0 h0)).length ≤ fs.length :=
      (List.takeWhile_prefix _).length_le
    have hl1w : (({ l with width := w0, height := h0 } : PLayout)).width = w0 := rfl
    have hl1h : (({ l with width := w0, height := h0 } : PLayout)).height = h0 := rfl
    have hgrow := grow_spec o fs w0 h0 _ hshape hkle hne
      ({ l with width := w0, height := h0 }) hl1w hl1h
    have hany := any_iff_takeWhile_pos (fitAt o w0 h0) fs hne hsorted (hmono w0 h0)
    have hscan := linear_scan_spec (fitAt o w0 h0) fs hsorted (hmono w0 h0)
    by_cases hfit0 : fs.any (fitAt o w0 h0) = true
    · have hkpos : 0 < (fs.takeWhile (fitAt o w0 h0)).length := hany.mp hfit0
      have hg := hgrow.2 hkpos
      constructor
      · intro w h hfind
        rw [first_fitting_pair, List.find?_cons_of_pos _ (by simpa using hfit0)] at hfind
        rw [Option.some_inj] at hfind
        injection hfind with hw hh
        subst hw; subst hh
        refine ⟨fs.getD ((fs.takeWhile (fitAt o w0 h0)).length - 1) 0, ?_, ?_⟩
        · rw [hscan, if_neg (by omega)]
        · rw [get_best_fit_loop]
          rw [hg]
      · intro hfind
        rw [first_fitting_pair, List.find?_cons_of_pos _ (by simpa using hfit0)] at hfind
        exact absurd hfind (by simp)
    · have hk0 : (fs.takeWhile (fitAt o w0 h0)).length = 0 := by
        by_contra hc
        exact hfit0 (hany.mpr (by omega))
      have hg := hgrow.1 hk0
      have hrest := get_best_fit_loop_spec o fs hne hsorted hmono rest
        (grow_to_maximum_font_size o ({ l with width := w0, height := h0 }) fs).1
      have hstep : get_best_fit_loop o fs l ((w0, h0) :: rest) =
          get_best_fit_loop o fs
            (grow_to_maximum_font_size o ({ l with width := w0, height := h0 }) fs).1 rest := by
        rw [get_best_fit_loop, hg]
      constructor
      · intro w h hfind
        rw [first_fitting_pair, List.find?_cons_of_neg _ (by simpa using hfit0)] at hfind
        obtain ⟨s, hs1, hs2⟩ := (hrest).1 w h hfind
        exact ⟨s, hs1, by rw [hstep]; exact hs2⟩
      · intro hfind
        rw [first_fitting_pair, List.find?_cons_of_neg _ (by simpa using hfit0)] at hfind
        rw [hstep]
        exact (hrest).2 hfind

/-!
## Claim theorems
-/

/-- C1: for every ascending, deduplicated candidate font-size list and
every fit predicate monotone in size, `grow_to_maximum_font_size`
returns the same outcome as a linear scan for the largest fitting
candidate — it succeeds leaving the layout at that largest fitting size,
and returns `CouldNotFit` exactly when even the smallest candidate does
not fit. -/
theorem grow_to_maximum_font_size_eq_linear_scan (o : PangoOracle) (l : PLayout)
    (v : List Int) (hne : v ≠ []) (hsorted : v.Sorted (· < ·))
    (hmono : ∀ a ∈ v, ∀ b ∈ v, a ≤ b →
      fitAt o l.width l.height b = true → fitAt o l.width l.height a = true) :
    (∀ s, linear_scan_largest_fit (fitAt o l.width l.height) v = some s →
        grow_to_maximum_font_size o l v = (⟨l.width, l.height, s⟩, Except.ok ())) ∧
    (linear_scan_largest_fit (fitAt o l.width l.height) v = none →
        (grow_to_maximum_font_size o l v).2 = Except.error SvgTextBoxError.CouldNotFit) ∧
    ((grow_to_maximum_font_size o l v).2 = Except.error SvgTextBoxError.CouldNotFit ↔
        fitAt o l.width l.height v.headI = false) := by
  have hshape := shape_of_sorted_mono (fitAt o l.width l.height) v hsorted hmono
  have hk : (v.takeWhile (fitAt o l.width l.height)).length ≤ v.length :=
    (List.takeWhile_prefix _).length_le
  have hgrow := grow_spec o v l.width l.height _ hshape hk hne l rfl rfl
  have hscan := linear_scan_spec (fitAt o l.width l.height) v hsorted hmono
  have hhead := headI_fit_iff (fitAt o l.width l.height) v hne
  refine ⟨?_, ?_, ?_⟩
  · intro s hs
    rw [hscan] at hs
    by_cases hk0 : (v.takeWhile (fitAt o l.width l.height)).length = 0
    · rw [if_pos hk0] at hs; exact absurd hs (by simp)
    · rw [if_neg hk0] at hs
      have := hgrow.2 (by omega)
      rw [this]
      rw [Option.some_inj] at hs
      rw [hs]
  · intro hnone
    rw [hscan] at hnone
    by_cases hk0 : (v.takeWhile (fitAt o l.width l.height)).length = 0
    · exact hgrow.1 hk0
    · rw [if_neg hk0] at hnone; exact absurd hnone (by simp)
  · constructor
    · intro herr
      rw [hhead]
      by_contra hk0
      have := hgrow.2 (by omega)
      rw [this] at herr
      exact absurd herr (by simp)
    · intro hf
      exact hgrow.1 (hhead.mp hf)

/-- Witness for C1 at a concrete input: candidates `[1, 2, 3]`, an
oracle that fits up to size 2; the search returns the layout at size 2. -/
theorem grow_to_maximum_font_size_eq_linear_scan_witness :
    grow_to_maximum_font_size c1Oracle ⟨7, 9, 0⟩ [1, 2, 3] =
      (⟨7, 9, 2⟩, Except.ok ()) := by
  have h2 : linear_scan_largest_fit (fitAt c1Oracle 7 9) [1, 2, 3] = some 2 := by decide
  exact (grow_to_maximum_font_size_eq_linear_scan c1Oracle ⟨7, 9, 0⟩ [1, 2, 3]
    (by decide) (by decide) (by decide)).1 2 h2

/-- C6: whenever the font-size search succeeds, the layout is left at
the returned (largest fitting) candidate size, not at whatever size was
probed last. -/
theorem grow_to_maximum_font_size_final_state (o : PangoOracle) (l : PLayout)
    (v : List Int) (hsorted : v.Sorted (· < ·))
    (hmono : ∀ a ∈ v, ∀ b ∈ v, a ≤ b →
      fitAt o l.width l.height b = true → fitAt o l.width l.height a = true)
    (l' : PLayout) (hok : grow_to_maximum_font_size o l v = (l', Except.ok ())) :
    linear_scan_largest_fit (fitAt o l.width l.height) v = some l'.fontSize := by
  by_cases hne : v = []
  · subst hne
    simp [grow_to_maximum_font_size, binary_search_by_fits] at hok
  · have hshape := shape_of_sorted_mono (fitAt o l.width l.height) v hsorted hmono
    have hk : (v.takeWhile (fitAt o l.width l.height)).length ≤ v.length :=
      (List.takeWhile_prefix _).length_le
    have hgrow := grow_spec o v l.width l.height _ hshape hk hne l rfl rfl
    have hscan := linear_scan_spec (fitAt o l.width l.height) v hsorted hmono
    by_cases hk0 : (v.takeWhile (fitAt o l.width l.height)).length = 0
    · have := hgrow.1 hk0
      rw [hok] at this
      exact absurd this (by simp)
    · have hg := hgrow.2 (by omega)
      rw [hok] at hg
      have hfs : l' = ⟨l.width, l.height,
          v.getD ((v.takeWhile (fitAt o l.width l.height)).length - 1) 0⟩ :=
        congrArg Prod.fst hg
      rw [hscan, if_neg hk0, hfs]

/-- Witness for C6 at a concrete input: after a successful search over
`[1, 2, 3]` against the size-2 oracle, the layout's font size 2 is the
largest fitting candidate.  During this search the last probed size is 3
(which does not fit); the stored size is the re-applied winner. -/
theorem grow_to_maximum_font_size_final_state_witness :
    linear_scan_largest_fit (fitAt c1Oracle 7 9) [1, 2, 3] = some 2 := by
  have hok : grow_to_maximum_font_size c1Oracle ⟨7, 9, 0⟩ [1, 2, 3] =
      (⟨7, 9, 2⟩, Except.ok ()) := by
    simp [grow_to_maximum_font_size, binary_search_by_fits, binary_search_loop,
      change_size_and_check_fits, set_font_size, fits, c1Oracle]
  exact grow_to_maximum_font_size_final_state c1Oracle ⟨7, 9, 0⟩ [1, 2, 3]
    (by decide) (by decide) ⟨7, 9, 2⟩ hok

/-- C3 counterexample: with flexible widths `{1, 2}` and heights
`{10, 20}` and an oracle fitting exactly at 1×20 and 2×10, the resolver
accepts the pair `(1, 20)` — a pair the claimed probe order (widths at
minimum height, then heights at maximum width) never visits at all; under
the claimed order the first fitting pair would be `(2, 10)`. -/
theorem get_best_fit_claimed_order_counterexample :
    get_best_fit c3Oracle c3Manager = Except.ok ⟨1, 20, 5⟩ ∧
    first_fitting_pair (fun w h => [(5 : Int)].any (fitAt c3Oracle w h))
      (claimed_dimension_order [1, 2] [10, 20]) = some (2, 10) ∧
    (1, 20) ∉ claimed_dimension_order [1, 2] [10, 20] := by
  refine ⟨?_, by decide, by decide⟩
  simp [get_best_fit, c3Manager, possible_dimensions, get_best_fit_loop,
    grow_to_maximum_font_size, binary_search_by_fits, binary_search_loop,
    change_size_and_check_fits, set_font_size, fits, fitAt, c3Oracle]

/-- C3 (amended): the resolver probes the full cartesian product of the
candidate dimensions in width-major order — for each width ascending,
every height ascending — and accepts the first pair for which a font
size fits; `CouldNotFit` is returned only after the whole product is
exhausted.  (The spec's two-phase order — widths at minimum height, then
heights at maximum width — is not what the code does.) -/
theorem get_best_fit_first_fit_in_product_order (o : PangoOracle)
    (widths heights fs : List Int) (base : PLayout)
    (hne : fs ≠ []) (hsorted : fs.Sorted (· < ·))
    (hmono : ∀ w h : Int, ∀ a ∈ fs, ∀ b ∈ fs, a ≤ b →
      fitAt o w h b = true → fitAt o w h a = true) :
    (∀ w h, first_fitting_pair (fun w h => fs.any (fitAt o w h))
        (possible_dimensions widths heights) = some (w, h) →
      ∃ s, linear_scan_largest_fit (fitAt o w h) fs = some s ∧
        get_best_fit o ⟨possible_dimensions widths heights, fs, base⟩ =
          Except.ok ⟨w, h, s⟩) ∧
    (first_fitting_pair (fun w h => fs.any (fitAt o w h))
        (possible_dimensions widths heights) = none →
      get_best_fit o ⟨possible_dimensions widths heights, fs, base⟩ =
        Except.error SvgTextBoxError.CouldNotFit) := by
  have := get_best_fit_loop_spec o fs hne hsorted hmono
    (possible_dimensions widths heights) base
  simpa [get_best_fit] using this

/-- Witness for the amended C3 at a concrete input: the resolver accepts
the first product-order pair that fits, `(1, 20)`, at font size 5. -/
theorem get_best_fit_first_fit_in_product_order_witness :
    get_best_fit c3Oracle
      (LayoutManager.mk (possible_dimensions [1, 2] [10, 20]) [5] ⟨0, 0, 0⟩) =
      Except.ok ⟨1, 20, 5⟩ := by
  have hmono : ∀ w h : Int, ∀ a ∈ [(5 : Int)], ∀ b ∈ [(5 : Int)], a ≤ b →
      fitAt c3Oracle w h b = true → fitAt c3Oracle w h a = true := by
    intro w h a ha b hb _ hf
    simp at ha hb
    subst ha; subst hb
    exact hf
  obtain ⟨s, hs1, hs2⟩ := (get_best_fit_first_fit_in_product_order c3Oracle
    [1, 2] [10, 20] [5] ⟨0, 0, 0⟩ (by decide) (by decide) hmono).1 1 20 (by decide)
  have h5 : linear_scan_largest_fit (fitAt c3Oracle 1 20) [5] = some 5 := by decide
  rw [hs1] at h5
  rw [Option.some_inj] at h5
  rw [h5] at hs2
  exact hs2

/-- C2 counterexample: a layout state that is not ellipsized and whose
nearest-corner character index matches the last byte of the text, but
whose ink extents start at a negative offset and overflow the 100×100
box.  `fits` (src/layout.rs) nevertheless reports `true`, while the
claimed three-signal predicate reports `false`: the ink-extent bounds
signal is not part of the code's predicate. -/
theorem fits_three_signal_counterexample :
    fits c2Oracle c2Layout = true ∧ fits_claimed c2Oracle c2Layout = false := by
  decide

/-- C2 (amended): the fit predicate of src/layout.rs returns true iff
the layout is not ellipsized and the character index nearest the box's
bottom-right corner equals the last byte index of the full text; the
ink-extent bounds signal is checked only by the historical
`LayoutSizing::fits` of src/lib.rs, which conversely omits the
character-index signal.  No predicate in the code combines all three
signals. -/
theorem fits_signals_characterization (o : PangoOracle) (l : PLayout) :
    (fits o l = true ↔
      ((o.signals l.width l.height l.fontSize).isEllipsized = false ∧
        (o.signals l.width l.height l.fontSize).xyToIndexBR = (o.textByteLen : Int) - 1)) ∧
    (fits_v1 o l = true ↔
      ((o.signals l.width l.height l.fontSize).isEllipsized = false ∧
        0 ≤ (o.signals l.width l.height l.fontSize).inkX ∧
        0 ≤ (o.signals l.width l.height l.fontSize).inkY ∧
        (o.signals l.width l.height l.fontSize).inkY +
          (o.signals l.width l.height l.fontSize).inkHeight ≤ l.height ∧
        (o.signals l.width l.height l.fontSize).inkX +
          (o.signals l.width l.height l.fontSize).inkWidth ≤ l.width)) := by
  constructor
  · rw [fits]
    simp only [Bool.not_eq_true', Bool.or_eq_false_iff, bne_eq_false_iff_eq]
  · rw [fits_v1]
    simp only [Bool.not_eq_true', Bool.or_eq_false_iff, decide_eq_false_iff_not,
      not_lt]
    constructor
    · rintro ⟨⟨he, hnw⟩, hse⟩
      refine ⟨he, hnw.1, hnw.2, by omega, by omega⟩
    · rintro ⟨he, hx, hy, hh, hw⟩
      refine ⟨⟨he, hx, hy⟩, by omega, by omega⟩

/-- C4: evaluation of the embedded code at the failing input.  For a
textbox whose width spec is `{100}` and height spec is `{200}` with no
padding, `possible_heights` (src/textbox.rs) yields `[102400]` — scaled
from the *width* spec value 100 — and not the `[204800]` the claim
requires from the height spec value 200; the two candidate lists
disagree.  (The claimed rejection of candidates that fall to ≤ 0 after
padding subtraction also exists nowhere: both `possible_widths` and
`possible_heights` pass every difference through unchecked.) -/
theorem possible_heights_derived_from_width_spec :
    c4TextBox.possible_heights = [102400] ∧
    claimed_possible_heights c4TextBox = [204800] ∧
    c4TextBox.possible_heights ≠ claimed_possible_heights c4TextBox ∧
    c4TextBox.possible_widths = [102400] := by
  decide

lemma rangeList_sorted (mn mx : Nat) : (rangeList mn mx).Sorted (· < ·) := by
  rw [rangeList]
  exact List.pairwise_lt_range' mn (mx + 1 - mn) 1 (by norm_num)

lemma rangeList_sort_eq (mn mx : Nat) :
    (rangeList mn mx).toFinset.sort (· ≤ ·) = rangeList mn mx :=
  (List.toFinset_sort _ (rangeList_sorted mn mx).nodup).mpr
    ((rangeList_sorted mn mx).le_of_lt)

lemma pair_sort_eq (a b : Nat) (hba : b < a) :
    (([a, b] : List Nat)).toFinset.sort (· ≤ ·) = [b, a] := by
  have h1 : ([a, b] : List Nat).toFinset = ([b, a] : List Nat).toFinset := by
    simp [Finset.pair_comm]
  rw [h1]
  exact (List.toFinset_sort _ (by simp; omega)).mpr
    (by simp [List.Sorted]; omega)

lemma mem_intRange (x y z : Int) : z ∈ intRange x y ↔ x ≤ z ∧ z ≤ y := by
  rw [intRange, List.mem_map]
  constructor
  · rintro ⟨i, hi, rfl⟩
    rw [List.mem_range] at hi
    omega
  · intro hz
    exact ⟨(z - x).toNat, by rw [List.mem_range]; omega, by omega⟩

lemma intRange_toFinset_eq_Icc (x y : Int) :
    (intRange x y).toFinset = Finset.Icc x y := by
  ext z
  rw [List.mem_toFinset, mem_intRange, Finset.mem_Icc]

/-- C5: parsing a whitespace-separated dimension or font-size string of
exactly two tokens `"a b"` yields the full ascending range `a..=b` when
`b > a`, and the explicit two-element set `{a, b}` when `b < a` — for
both `FontSizing::from_vec` (src/fontsizing.rs, reached by
`FontSizing::from_str`) and `ints_from_str` (src/input.rs). -/
theorem two_token_disambiguation (a b : Nat) (x y : Int)
    (hx : 0 < x) (hy : 0 < y) :
    (a < b → (FontSizing.from_vec [a, b]).to_vec = rangeList a b ∧
      (rangeList a b).length = b - a + 1) ∧
    (b < a → (FontSizing.from_vec [a, b]).to_vec = [b, a]) ∧
    (x < y → ints_from_str [x, y] = Except.ok (Finset.Icc x y)) ∧
    (y < x → ints_from_str [x, y] = Except.ok ({x, y} : Finset Int)) := by
  refine ⟨?_, ?_, ?_, ?_⟩
  · intro hab
    constructor
    · rw [FontSizing.from_vec]
      rw [if_neg (by omega), if_pos hab]
      rw [FontSizing.to_vec]
      exact rangeList_sort_eq a b
    · rw [rangeList, List.length_range']
      omega
  · intro hba
    rw [FontSizing.from_vec, if_pos hba, FontSizing.to_vec]
    exact pair_sort_eq a b hba
  · intro hxy
    rw [ints_from_str, if_neg (by simp; omega)]
    simp only [List.getD_cons_zero, List.getD_cons_succ, List.length_cons,
      List.length_nil]
    rw [if_pos (by norm_num), if_pos ⟨hxy, by omega⟩, intRange_toFinset_eq_Icc]
  · intro hyx
    rw [ints_from_str, if_neg (by simp; omega)]
    simp only [List.getD_cons_zero, List.getD_cons_succ, List.length_cons,
      List.length_nil]
    rw [if_pos (by norm_num), if_neg (by omega)]
    simp [List.toFinset_cons, List.toFinset_nil]

/-- Witness for C5 at the spec's own example: `"100 200"` yields the
101-value range 100..200, `"200 100"` yields exactly `{100, 200}`, for
both embedded parsers. -/
theorem two_token_disambiguation_witness :
    (FontSizing.from_vec [100, 200]).to_vec = rangeList 100 200 ∧
    (rangeList 100 200).length = 101 ∧
    (FontSizing.from_vec [200, 100]).to_vec = [100, 200] ∧
    ints_from_str [100, 200] = Except.ok (Finset.Icc 100 200) ∧
    ints_from_str [200, 100] = Except.ok ({200, 100} : Finset Int) := by
  have h1 := two_token_disambiguation 100 200 100 200 (by norm_num) (by norm_num)
  have h2 := two_token_disambiguation 200 100 200 100 (by norm_num) (by norm_num)
  refine ⟨(h1.1 (by norm_num)).1, ?_, h2.2.1 (by norm_num),
    h1.2.2.1 (by norm_num), h2.2.2.2 (by norm_num)⟩
  rw [(h1.1 (by norm_num)).2]

lemma stepByList_sublist (s : Nat) (l : List Nat) : (stepByList s l).Sublist l := by
  rw [stepByList]
  have h1 : (l.enum.filter (fun p => p.1 % s = 0)).Sublist l.enum :=
    List.filter_sublist _
  have h2 := h1.map Prod.snd
  rwa [List.enum_map_snd] at h2

lemma stepByList_ne_nil (s a : Nat) (t : List Nat) : stepByList s (a :: t) ≠ [] := by
  rw [stepByList, List.enum_cons']
  rw [List.filter_cons_of_pos (by simp)]
  simp

lemma to_vec_sorted (f : FontSizing) : f.to_vec.Sorted (· < ·) := by
  match f with
  | FontSizing.Static i => simp [FontSizing.to_vec]
  | FontSizing.Flex s => exact Finset.sort_sorted_lt s
  | FontSizing.Range mn mx stp =>
    match stp with
    | none => exact rangeList_sorted mn mx
    | some s =>
      exact List.Pairwise.sublist (stepByList_sublist s (rangeList mn mx))
        (rangeList_sorted mn mx)

lemma to_vec_ne_nil (f : FontSizing) (hv : f.ValidSpec) : f.to_vec ≠ [] := by
  match f with
  | FontSizing.Static i => simp [FontSizing.to_vec]
  | FontSizing.Flex s =>
    rw [FontSizing.to_vec]
    obtain ⟨hne, -⟩ := hv
    intro hc
    have hl := congrArg List.length hc
    rw [Finset.length_sort, List.length_nil] at hl
    exact absurd (Finset.card_pos.mpr hne) (by omega)
  | FontSizing.Range mn mx stp =>
    obtain ⟨-, hle, -⟩ := hv
    have hr : ∃ t, rangeList mn mx = mn :: t := by
      have hn : mx + 1 - mn = (mx - mn) + 1 := by omega
      rw [rangeList, hn, List.range'_succ]
      exact ⟨_, rfl⟩
    obtain ⟨t, ht⟩ := hr
    match stp with
    | none => rw [FontSizing.to_vec, ht]; simp
    | some s => rw [FontSizing.to_vec, ht]; exact stepByList_ne_nil s mn t

/-- C7 counterexample: the two-element set spec `{10, 20}` serialises to
the value list `[10, 20]`, which the parser reads back as the *range*
10..=20; the round trip turns 2 candidate values into 11. -/
theorem fontsizing_roundtrip_counterexample :
    FontSizing.to_vec (FontSizing.from_vec
        (FontSizing.to_vec (FontSizing.Flex {10, 20}))) ≠
      FontSizing.to_vec (FontSizing.Flex {10, 20}) := by
  have h1 : FontSizing.to_vec (FontSizing.Flex {10, 20}) = [10, 20] := by
    rw [FontSizing.to_vec]
    have h : ({10, 20} : Finset Nat) = ([10, 20] : List Nat).toFinset := by decide
    rw [h]
    exact (List.toFinset_sort _ (by decide)).mpr (by decide)
  rw [h1, FontSizing.from_vec]
  rw [if_neg (by norm_num), if_pos (by norm_num)]
  rw [FontSizing.to_vec]
  rw [show FontSizing.to_vec (FontSizing.Range 10 20 none) = rangeList 10 20 from rfl]
  rw [rangeList_sort_eq]
  decide

/-- C7 (amended): serialising a valid spec to its value list and parsing
it back preserves the candidate value sequence, *except* when the value
list has exactly two non-adjacent entries — a two-element `Flex` set
`{a, b}` with `b > a + 1`, or a two-value stepped range — which the
two-token rule re-reads as the full range between them.  Formally: the
round trip is the identity on the values whenever any two-element value
list consists of consecutive integers. -/
theorem fontsizing_roundtrip_amended (f : FontSizing) (hv : f.ValidSpec)
    (h2 : ∀ a b : Nat, f.to_vec = [a, b] → b = a + 1) :
    (FontSizing.from_vec f.to_vec).to_vec = f.to_vec := by
  have hs := to_vec_sorted f
  have hne := to_vec_ne_nil f hv
  cases hl : f.to_vec with
  | nil => exact absurd hl hne
  | cons x t =>
    cases t with
    | nil => rw [FontSizing.from_vec, FontSizing.to_vec]
    | cons y t2 =>
      cases t2 with
      | nil =>
        have hxy : x < y := by
          rw [hl] at hs
          exact (List.sorted_cons.mp hs).1 y (by simp)
        have hy : y = x + 1 := h2 x y hl
        rw [FontSizing.from_vec]
        rw [if_neg (by omega), if_pos hxy]
        rw [FontSizing.to_vec]
        rw [show FontSizing.to_vec (FontSizing.Range x y none) = rangeList x y from rfl]
        rw [rangeList_sort_eq]
        subst hy
        rw [rangeList, show x + 1 + 1 - x = 2 by omega]
        rfl
      | cons z rest =>
        rw [hl] at hs
        have hfv : FontSizing.from_vec (x :: y :: z :: rest) =
            FontSizing.Flex (x :: y :: z :: rest).toFinset := rfl
        rw [hfv, FontSizing.to_vec]
        exact (List.toFinset_sort _ hs.nodup).mpr (hs.le_of_lt)

/-- Witness for the amended C7 at a concrete input: the range spec 3–7
(values `[3, 4, 5, 6, 7]`) survives the round trip. -/
theorem fontsizing_roundtrip_amended_witness :
    (FontSizing.from_vec (FontSizing.Range 3 7 none).to_vec).to_vec =
      (FontSizing.Range 3 7 none).to_vec := by
  apply fontsizing_roundtrip_amended (FontSizing.Range 3 7 none)
  · exact ⟨by norm_num, by norm_num, by intro s hs; cases hs⟩
  · intro a b hab
    rw [show (FontSizing.Range 3 7 none).to_vec = [3, 4, 5, 6, 7] from by decide] at hab
    simp at hab

/-- C8 counterexample: `FontSizing::from_vec` applied to the empty
collection returns the *default* spec (the range 10–30), not an error —
its return type has no error channel at all.  The claimed
construction-time rejection of empty collections does not happen here. -/
theorem from_vec_empty_yields_default :
    FontSizing.from_vec [] = FontSizing.Range 10 30 none := rfl

/-- C8 (amended): a range whose minimum exceeds its maximum is rejected
at construction by `FontSizing::from_range` (src/input.rs); but an empty
collection given to `FontSizing::from_vec` (src/fontsizing.rs) silently
yields the default 10–30 range, and empty candidate lists are rejected
only later, at `LayoutManager::new` (src/layout.rs). -/
theorem construction_time_validation_amended :
    (∀ mn mx : Int, mx < mn →
      InputFontSizing.from_range (some mn) (some mx) =
        Except.error LayoutError.BadFontRange) ∧
    FontSizing.from_vec [] = FontSizing.default ∧
    (∀ widths heights : List Int, ∀ base : PLayout,
      LayoutManager.new widths heights [] base =
        Except.error SvgTextBoxError.NoValidFontSizes) := by
  refine ⟨?_, rfl, ?_⟩
  · intro mn mx h
    rw [InputFontSizing.from_range, if_pos h]
  · intro widths heights base
    rw [LayoutManager.new]
    have hb : btreeset_collect [] = [] := by
      rw [btreeset_collect]
      simp
    rw [hb]
    simp

/-- Witness for the amended C8 at concrete inputs. -/
theorem construction_time_validation_amended_witness :
    (10 : Int) < 20 ∧
    InputFontSizing.from_range (some 20) (some 10) =
      Except.error LayoutError.BadFontRange ∧
    FontSizing.from_vec [] = FontSizing.default ∧
    LayoutManager.new [1] [2] [] ⟨0, 0, 0⟩ =
      Except.error SvgTextBoxError.NoValidFontSizes := by
  have h := construction_time_validation_amended
  exact ⟨by norm_num, h.1 20 10 (by norm_num), h.2.1, h.2.2 [1] [2] ⟨0, 0, 0⟩⟩

/-- C9: every `LayoutManager` built by `LayoutManager::new` stores a
strictly ascending (sorted, deduplicated) font-size candidate list whose
members are exactly the source's candidates, whatever order or
duplication the `possible_font_sizes` iterator produced. -/
theorem layout_manager_font_sizes_sorted (widths heights fs : List Int)
    (base : PLayout) (m : LayoutManager)
    (hok : LayoutManager.new widths heights fs base = Except.ok m) :
    m.font_sizes.Sorted (· < ·) ∧ m.font_sizes.toFinset = fs.toFinset := by
  rw [LayoutManager.new] at hok
  by_cases h1 : (btreeset_collect fs).isEmpty
  · rw [if_pos h1] at hok; exact absurd hok (by simp)
  rw [if_neg h1] at hok
  by_cases hh : heights.isEmpty
  · rw [if_pos hh] at hok; exact absurd hok (by simp)
  rw [if_neg hh] at hok
  by_cases hw : widths.isEmpty
  · rw [if_pos hw] at hok; exact absurd hok (by simp)
  rw [if_neg hw] at hok
  rw [Except.ok.injEq] at hok
  have hfs : m.font_sizes = btreeset_collect fs := by rw [← hok]
  rw [hfs, btreeset_collect]
  refine ⟨Finset.sort_sorted_lt _, ?_⟩
  ext z
  rw [List.mem_toFinset, Finset.mem_sort, List.mem_toFinset]

/-- Witness for C9 at a concrete input: the iterator order `[3, 1, 2, 1]`
is stored as the strictly ascending `[1, 2, 3]` with the same members. -/
theorem layout_manager_font_sizes_sorted_witness :
    (LayoutManager.mk [((5 : Int), (7 : Int))] [1, 2, 3] ⟨0, 0, 0⟩).font_sizes.Sorted (· < ·) ∧
    (LayoutManager.mk [((5 : Int), (7 : Int))] [1, 2, 3] ⟨0, 0, 0⟩).font_sizes.toFinset =
      ([3, 1, 2, 1] : List Int).toFinset := by
  apply layout_manager_font_sizes_sorted [5] [7] [3, 1, 2, 1] ⟨0, 0, 0⟩
  have hb : btreeset_collect [3, 1, 2, 1] = [1, 2, 3] := by
    have h : ([3, 1, 2, 1] : List Int).toFinset = ([1, 2, 3] : List Int).toFinset := by
      decide
    rw [btreeset_collect, h]
    exact (List.toFinset_sort _ (by decide)).mpr (by decide)
  rw [LayoutManager.new, hb]
  simp [possible_dimensions]

lemma lookup_filter_ne (k q : String) (m : List (String × String)) (h : q ≠ k) :
    (m.filter (fun kv => ¬(kv.1 = k))).lookup q = m.lookup q := by
  induction m with
  | nil => rfl
  | cons a t ih =>
    obtain ⟨k1, v1⟩ := a
    by_cases ha : k1 = k
    · subst ha
      rw [List.filter_cons_of_neg (by simp)]
      rw [ih, List.lookup_cons]
      have : (q == k1) = false := by simp [h]
      rw [this]
    · rw [List.filter_cons_of_pos (by simpa using ha)]
      rw [List.lookup_cons, List.lookup_cons, ih]

lemma lookup_mapInsert_self (k v : String) (m : List (String × String)) :
    (mapInsert k v m).lookup k = some v := by
  rw [mapInsert, List.lookup_cons]
  simp

lemma lookup_mapInsert_ne (k q v : String) (m : List (String × String)) (h : q ≠ k) :
    (mapInsert k v m).lookup q = m.lookup q := by
  rw [mapInsert, List.lookup_cons]
  have hb : (q == k) = false := by simp [h]
  rw [hb]
  exact lookup_filter_ne k q m h

/-- C10: `insert_background_rect` emits a rect whose `x` is 0, `y` is 0,
and whose `width`/`height` are the textbox's recorded width and height
fields, overriding any `x`/`y`/`width`/`height` entries the caller put in
the attribute map; the width and height fields of the textbox itself are
unchanged by the call. -/
theorem insert_background_rect_geometry (tb : RenderedTextbox)
    (attrs : List (String × String)) :
    (background_rect_attrs tb attrs).lookup "x" = some "0" ∧
    (background_rect_attrs tb attrs).lookup "y" = some "0" ∧
    (background_rect_attrs tb attrs).lookup "width" = some (toString tb.width) ∧
    (background_rect_attrs tb attrs).lookup "height" = some (toString tb.height) ∧
    (insert_background_rect tb attrs).width = tb.width ∧
    (insert_background_rect tb attrs).height = tb.height := by
  refine ⟨?_, ?_, ?_, ?_, rfl, rfl⟩ <;> rw [background_rect_attrs]
  · rw [lookup_mapInsert_ne _ _ _ _ (by decide),
      lookup_mapInsert_ne _ _ _ _ (by decide),
      lookup_mapInsert_ne _ _ _ _ (by decide),
      lookup_mapInsert_self]
  · rw [lookup_mapInsert_ne _ _ _ _ (by decide),
      lookup_mapInsert_ne _ _ _ _ (by decide),
      lookup_mapInsert_self]
  · rw [lookup_mapInsert_ne _ _ _ _ (by decide),
      lookup_mapInsert_self]
  · rw [lookup_mapInsert_self]

end SvgTextBox
